import Mathlib

/-!
# Verification of the `constraint.Span` interval core

This file is a shallow embedding of `pkg/sql/opt/constraint`'s `Span` type
(the Go source in this repository) together with proofs of the specified
properties.

Embedding conventions:
* Go's `panic` is modelled by returning `Except.error msg` paired with the
  state of the receiver at the moment of the panic (Go mutates the receiver
  through a pointer, so writes performed before a panic survive it).
* `SpanBoundary` and `KeyExtension` are Go `bool`-backed types
  (`IncludeBoundary = false`, `ExcludeBoundary = true`, `ExtendLow = false`,
  `ExtendHigh = true`, exactly as the source comments in `startExt`/`endExt`
  state); they are embedded as `Bool` with the same constant values.
* The external `Key`/`KeyContext` types are not part of the source tree, only
  their contract is (spec §6); they are modelled below by `KeySpace`.
-/

/-- Modelled from the spec: `SpanBoundary` is a bool-backed enum
(`IncludeBoundary = false`, `ExcludeBoundary = true`), per the source
`type SpanBoundary bool`. -/
abbrev SpanBoundary := Bool

/-- Source: `IncludeBoundary SpanBoundary = false`. -/
def IncludeBoundary : SpanBoundary := false

/-- Source: `ExcludeBoundary SpanBoundary = true`. -/
def ExcludeBoundary : SpanBoundary := true

/-- Modelled from the spec: `KeyExtension` is the virtual sentinel direction of
an extended key, bool-backed (`ExtendLow = false`, `ExtendHigh = true`), as
documented by the casts in the source's `startExt`/`endExt`. The type itself
lives in the external key code, outside the source tree. -/
abbrev KeyExtension := Bool

/-- Modelled from the spec: the `ExtendLow` sentinel, lower than everything
that could follow the key's tuple prefix. -/
def ExtendLow : KeyExtension := false

/-- Modelled from the spec: the `ExtendHigh` sentinel, higher than everything
that could follow the key's tuple prefix. -/
def ExtendHigh : KeyExtension := true

/-- Modelled from the spec: the contract the external `Key` type together with
a fixed `KeyContext` must supply (spec §6): emptiness test, extended-key
comparison `Compare(ctx, other, thisExtension, otherExtension)`, and the
optional `Next`/`Prev` operations (returning `none` when the domain does not
support them). A `KeySpace` is one `Key` type paired with one fixed
`KeyContext`. -/
structure KeySpace where
  K : Type
  isEmpty : K → Bool
  compare : K → K → KeyExtension → KeyExtension → Int
  next : K → Option K
  prev : K → Option K

/-- The `Span` struct from the source: start/end keys, their boundaries, and
the `immutable` flag (the Go field `end` is spelled `end_` because `end` is a
Lean keyword). -/
structure Span (ks : KeySpace) where
  start : ks.K
  end_ : ks.K
  startBoundary : SpanBoundary
  endBoundary : SpanBoundary
  immutable : Bool

/-- Source `IsUnconstrained`: both the start and end boundaries are empty. -/
def Span.IsUnconstrained {ks : KeySpace} (sp : Span ks) : Bool :=
  ks.isEmpty sp.start && ks.isEmpty sp.end_

/-- Source `startExt`: trivial cast of the start boundary value
(`IncludeBoundary (false) = ExtendLow (false)`,
`ExcludeBoundary (true) = ExtendHigh (true)`). -/
def Span.startExt {ks : KeySpace} (sp : Span ks) : KeyExtension :=
  sp.startBoundary

/-- Source `endExt`: invert the end boundary value
(`IncludeBoundary (false) = ExtendHigh (true)`,
`ExcludeBoundary (true) = ExtendLow (false)`). -/
def Span.endExt {ks : KeySpace} (sp : Span ks) : KeyExtension :=
  !sp.endBoundary

/-- Source `Set`: validates and then assigns the four fields. The empty-key
checks run before any assignment; the `start >= end` check runs after all four
fields have been assigned, mirroring the statement order of the Go code. The
returned span is the receiver's state at return or at the panic point. -/
def Span.Set {ks : KeySpace} (sp : Span ks) (start : ks.K) (startBoundary : SpanBoundary)
    (end_ : ks.K) (endBoundary : SpanBoundary) : Span ks × Except String Unit :=
  if sp.immutable then (sp, Except.error "mutation disallowed")
  else
    let check : Option String :=
      if ks.isEmpty start then
        if ks.isEmpty end_ then some "unconstrained span should never be used"
        else if startBoundary = ExcludeBoundary then
          some "an empty start boundary must be inclusive"
        else none
      else if ks.isEmpty end_ then
        if endBoundary = ExcludeBoundary then
          some "an empty end boundary must be inclusive"
        else none
      else none
    match check with
    | some msg => (sp, Except.error msg)
    | none =>
      let sp2 : Span ks :=
        { sp with start := start, startBoundary := startBoundary,
                  end_ := end_, endBoundary := endBoundary }
      if 0 ≤ ks.compare sp2.start sp2.end_ sp2.startExt sp2.endExt then
        (sp2, Except.error "span cannot be empty")
      else (sp2, Except.ok ())

/-- Source `CompareStarts`:
`sp.start.Compare(keyCtx, other.start, sp.startExt(), other.startExt())`. -/
def Span.CompareStarts {ks : KeySpace} (sp other : Span ks) : Int :=
  ks.compare sp.start other.start sp.startExt other.startExt

/-- Source `CompareEnds`:
`sp.end.Compare(keyCtx, other.end, sp.endExt(), other.endExt())`. -/
def Span.CompareEnds {ks : KeySpace} (sp other : Span ks) : Int :=
  ks.compare sp.end_ other.end_ sp.endExt other.endExt

/-- Source `Compare`: start boundaries first, then end boundaries. -/
def Span.Compare {ks : KeySpace} (sp other : Span ks) : Int :=
  let cmp := sp.CompareStarts other
  if cmp ≠ 0 then cmp
  else
    let cmp2 := sp.CompareEnds other
    if cmp2 ≠ 0 then cmp2
    else 0

/-- Source `StartsAfter`: this span's start boundary is greater than or equal
to the given span's end boundary. -/
def Span.StartsAfter {ks : KeySpace} (sp other : Span ks) : Bool :=
  0 ≤ ks.compare sp.start other.end_ sp.startExt other.endExt

/-- Source `TryIntersectWith`: panics if immutable; returns `false` (receiver
untouched) when the spans do not overlap; otherwise adopts the larger start
and the smaller end in place and returns `true`. -/
def Span.TryIntersectWith {ks : KeySpace} (sp other : Span ks) :
    Span ks × Except String Bool :=
  if sp.immutable then (sp, Except.error "mutation disallowed")
  else
    let cmpStarts := sp.CompareStarts other
    if 0 < cmpStarts ∧ 0 ≤ ks.compare sp.start other.end_ sp.startExt other.endExt then
      (sp, Except.ok false)
    else
      let cmpEnds := sp.CompareEnds other
      if cmpEnds < 0 ∧ ks.compare sp.end_ other.start sp.endExt other.startExt ≤ 0 then
        (sp, Except.ok false)
      else
        let sp1 :=
          if cmpStarts < 0 then
            { sp with start := other.start, startBoundary := other.startBoundary }
          else sp
        let sp2 :=
          if 0 < cmpEnds then
            { sp1 with end_ := other.end_, endBoundary := other.endBoundary }
          else sp1
        (sp2, Except.ok true)

/-- Source `TryUnionWith`: panics if immutable; returns `false` (receiver
untouched) when there is space between the spans; otherwise adopts the lesser
start and the greater end in place and returns `true`. -/
def Span.TryUnionWith {ks : KeySpace} (sp other : Span ks) :
    Span ks × Except String Bool :=
  if sp.immutable then (sp, Except.error "mutation disallowed")
  else
    let cmpStartKeys := sp.CompareStarts other
    let cmp : Int :=
      if cmpStartKeys < 0 then
        ks.compare sp.end_ other.start sp.endExt other.startExt
      else if 0 < cmpStartKeys then
        ks.compare other.end_ sp.start other.endExt sp.startExt
      else 0
    if cmp < 0 then (sp, Except.ok false)
    else
      let cmpEndKeys := sp.CompareEnds other
      let sp1 :=
        if 0 < cmpStartKeys then
          { sp with start := other.start, startBoundary := other.startBoundary }
        else sp
      let sp2 :=
        if cmpEndKeys < 0 then
          { sp1 with end_ := other.end_, endBoundary := other.endBoundary }
        else sp1
      (sp2, Except.ok true)

/-- Source `PreferInclusive`: panics if immutable; converts an exclusive start
via `Next` and an exclusive end via `Prev` when the key supports it. -/
def Span.PreferInclusive {ks : KeySpace} (sp : Span ks) : Span ks × Except String Unit :=
  if sp.immutable then (sp, Except.error "mutation disallowed")
  else
    let sp1 :=
      if sp.startBoundary = ExcludeBoundary then
        match ks.next sp.start with
        | some key => { sp with start := key, startBoundary := IncludeBoundary }
        | none => sp
      else sp
    let sp2 :=
      if sp1.endBoundary = ExcludeBoundary then
        match ks.prev sp1.end_ with
        | some key => { sp1 with end_ := key, endBoundary := IncludeBoundary }
        | none => sp1
      else sp1
    (sp2, Except.ok ())

/-- Source `Copy`: value copy with `immutable` cleared. -/
def Span.Copy {ks : KeySpace} (sp : Span ks) : Span ks :=
  { sp with immutable := false }

/-- Source `makeImmutable`: sets the `immutable` flag. -/
def Span.makeImmutable {ks : KeySpace} (sp : Span ks) : Span ks :=
  { sp with immutable := true }

/-- Invariant I3 of the spec, the property `Set` establishes: the start
boundary is strictly less than the end boundary under extended-key
comparison. -/
def Span.Valid {ks : KeySpace} (sp : Span ks) : Prop :=
  ks.compare sp.start sp.end_ sp.startExt sp.endExt < 0

instance {ks : KeySpace} (sp : Span ks) : Decidable sp.Valid :=
  inferInstanceAs (Decidable (_ < _))

/-- Modelled from the spec: the total-order contract of `Key.Compare` for a
fixed `KeyContext` (spec §6: comparison "must be total and consistent"; §4.1:
tuples are compared first and, on equal tuples, `ExtendLow` sorts before
`ExtendHigh`, so comparison-equal extended keys are equal). -/
structure LawfulCompare (ks : KeySpace) : Prop where
  antisym : ∀ a b ea eb, ks.compare a b ea eb = -ks.compare b a eb ea
  trans_le : ∀ a b c ea eb ec, ks.compare a b ea eb ≤ 0 →
    ks.compare b c eb ec ≤ 0 → ks.compare a c ea ec ≤ 0
  eq_of_zero : ∀ a b ea eb, ks.compare a b ea eb = 0 → a = b ∧ ea = eb

/-- Modelled from the spec: a concrete discrete key domain instantiating the
contract — a `Key` is a tuple of integers (all columns ascending), compared
elementwise; when one tuple is a proper prefix of the other, the shorter
tuple's sentinel decides (`ExtendLow` before every continuation, `ExtendHigh`
after every continuation); equal tuples order `ExtendLow` before
`ExtendHigh`. -/
def intKeyCompare : List Int → List Int → KeyExtension → KeyExtension → Int
  | [], [], ea, eb => if ea = eb then 0 else if ea = ExtendLow then -1 else 1
  | [], _ :: _, ea, _ => if ea = ExtendLow then -1 else 1
  | _ :: _, [], _, eb => if eb = ExtendLow then 1 else -1
  | a :: as, b :: bs, ea, eb =>
    if a < b then -1 else if b < a then 1 else intKeyCompare as bs ea eb

/-- Modelled from the spec: `Next` for the discrete integer domain — the next
representable value increments the last column; the empty key has no
successor. -/
def intNext : List Int → Option (List Int)
  | [] => none
  | [x] => some [x + 1]
  | x :: xs =>
    match intNext xs with
    | some ys => some (x :: ys)
    | none => none

/-- Modelled from the spec: `Prev` for the discrete integer domain — the
previous representable value decrements the last column; the empty key has no
predecessor. -/
def intPrev : List Int → Option (List Int)
  | [] => none
  | [x] => some [x - 1]
  | x :: xs =>
    match intPrev xs with
    | some ys => some (x :: ys)
    | none => none

/-- Modelled from the spec: the integer-tuple key space with a fixed
all-ascending `KeyContext`. -/
def intKS : KeySpace where
  K := List Int
  isEmpty := List.isEmpty
  compare := intKeyCompare
  next := intNext
  prev := intPrev

/-- Modelled from the spec: a key domain without `Next`/`Prev` support on any
value (e.g. a continuous domain), used to exercise the no-op side of
`PreferInclusive`. -/
def noStepKS : KeySpace where
  K := List Int
  isEmpty := List.isEmpty
  compare := intKeyCompare
  next := fun _ => none
  prev := fun _ => none

/-! ## Consequences of the `Key.Compare` contract -/

/-- Comparing an extended key with itself yields 0. -/
theorem LawfulCompare.cmp_refl {ks : KeySpace} (lc : LawfulCompare ks)
    (a : ks.K) (e : KeyExtension) : ks.compare a a e e = 0 := by
  have h := lc.antisym a a e e
  omega

/-- Strict transitivity on the left. -/
theorem LawfulCompare.lt_of_lt_of_le {ks : KeySpace} (lc : LawfulCompare ks)
    {a b c : ks.K} {ea eb ec : KeyExtension}
    (h1 : ks.compare a b ea eb < 0) (h2 : ks.compare b c eb ec ≤ 0) :
    ks.compare a c ea ec < 0 := by
  have hle := lc.trans_le a b c ea eb ec (le_of_lt h1) h2
  rcases lt_or_eq_of_le hle with h | h
  · exact h
  · exfalso
    have hca : ks.compare c a ec ea = 0 := by
      have := lc.antisym a c ea ec; omega
    have hcb := lc.trans_le c a b ec ea eb (le_of_eq hca) (le_of_lt h1)
    have hba := lc.trans_le b c a eb ec ea h2 (le_of_eq hca)
    have := lc.antisym a b ea eb
    omega

/-- Strict transitivity on the right. -/
theorem LawfulCompare.lt_of_le_of_lt {ks : KeySpace} (lc : LawfulCompare ks)
    {a b c : ks.K} {ea eb ec : KeyExtension}
    (h1 : ks.compare a b ea eb ≤ 0) (h2 : ks.compare b c eb ec < 0) :
    ks.compare a c ea ec < 0 := by
  have hle := lc.trans_le a b c ea eb ec h1 (le_of_lt h2)
  rcases lt_or_eq_of_le hle with h | h
  · exact h
  · exfalso
    have hca : ks.compare c a ec ea = 0 := by
      have := lc.antisym a c ea ec; omega
    have hcb := lc.trans_le c a b ec ea eb (le_of_eq hca) h1
    have := lc.antisym b c eb ec
    omega

/-! ## The concrete integer model satisfies the contract -/

theorem intKeyCompare_antisym :
    ∀ (a b : List Int) (ea eb : KeyExtension),
      intKeyCompare a b ea eb = -intKeyCompare b a eb ea := by
  intro a
  induction a with
  | nil =>
    intro b ea eb
    cases b with
    | nil => revert ea eb; decide
    | cons x xs => simp only [intKeyCompare]; revert ea eb; decide
  | cons x xs ih =>
    intro b ea eb
    cases b with
    | nil => simp only [intKeyCompare]; revert ea eb; decide
    | cons y ys =>
      simp only [intKeyCompare]
      split_ifs <;> first | omega | exact ih ys ea eb

theorem intKeyCompare_trans_le :
    ∀ (a b c : List Int) (ea eb ec : KeyExtension),
      intKeyCompare a b ea eb ≤ 0 → intKeyCompare b c eb ec ≤ 0 →
      intKeyCompare a c ea ec ≤ 0 := by
  intro a
  induction a with
  | nil =>
    intro b c ea eb ec h1 h2
    cases b with
    | nil =>
      cases c with
      | nil => revert h1 h2; revert ea eb ec; decide
      | cons z zs =>
        simp only [intKeyCompare] at h1 h2 ⊢
        revert h1 h2; revert ea eb ec; decide
    | cons y ys =>
      cases c with
      | nil =>
        simp only [intKeyCompare] at h1 ⊢
        clear h2
        revert h1; revert ea ec; decide
      | cons z zs =>
        simp only [intKeyCompare] at h1 ⊢
        clear h2
        revert h1; revert ea eb; decide
  | cons x xs ih =>
    intro b c ea eb ec h1 h2
    cases b with
    | nil =>
      cases c with
      | nil =>
        simp only [intKeyCompare] at h1 h2 ⊢
        revert h1 h2; revert ea eb ec; decide
      | cons z zs =>
        exfalso
        simp only [intKeyCompare] at h1 h2
        revert h1 h2; revert eb; decide
    | cons y ys =>
      cases c with
      | nil =>
        simp only [intKeyCompare] at h2 ⊢
        clear h1 ih
        revert h2; revert eb ec; decide
      | cons z zs =>
        simp only [intKeyCompare] at h1 h2 ⊢
        rcases lt_trichotomy x y with hxy | hxy | hxy
        · rcases lt_trichotomy y z with hyz | hyz | hyz
          · rw [if_pos (by omega : x < z)]; omega
          · rw [if_pos (by omega : x < z)]; omega
          · rw [if_pos hxy] at h1
            rw [if_neg (by omega), if_pos hyz] at h2
            omega
        · rcases lt_trichotomy y z with hyz | hyz | hyz
          · rw [if_pos (by omega : x < z)]; omega
          · rw [if_neg (by omega), if_neg (by omega)] at h1 h2 ⊢
            exact ih ys zs ea eb ec h1 h2
          · rw [if_neg (by omega), if_pos hyz] at h2
            omega
        · rw [if_neg (by omega), if_pos hxy] at h1
          omega

theorem intKeyCompare_eq_of_zero :
    ∀ (a b : List Int) (ea eb : KeyExtension),
      intKeyCompare a b ea eb = 0 → a = b ∧ ea = eb := by
  intro a
  induction a with
  | nil =>
    intro b ea eb h
    cases b with
    | nil =>
      refine ⟨rfl, ?_⟩
      revert h; revert ea eb; decide
    | cons y ys =>
      exfalso
      simp only [intKeyCompare] at h
      revert h; revert ea; decide
  | cons x xs ih =>
    intro b ea eb h
    cases b with
    | nil =>
      exfalso
      simp only [intKeyCompare] at h
      revert h; revert eb; decide
    | cons y ys =>
      simp only [intKeyCompare] at h
      rcases lt_trichotomy x y with hxy | hxy | hxy
      · rw [if_pos hxy] at h; omega
      · rw [if_neg (by omega), if_neg (by omega)] at h
        obtain ⟨h1, h2⟩ := ih ys ea eb h
        exact ⟨by rw [hxy, h1], h2⟩
      · rw [if_neg (by omega), if_pos hxy] at h; omega

/-- The concrete integer model satisfies the `Key.Compare` contract. -/
theorem intKS_lawful : LawfulCompare intKS :=
  ⟨intKeyCompare_antisym, intKeyCompare_trans_le, intKeyCompare_eq_of_zero⟩

/-- In the concrete model, equal key tuples order `ExtendLow` strictly before
`ExtendHigh` (the extension-rule half of the `Key.Compare` contract). -/
theorem intKeyCompare_low_high :
    ∀ k : List Int, intKeyCompare k k ExtendLow ExtendHigh < 0 := by
  intro k
  induction k with
  | nil => decide
  | cons x xs ih =>
    simp only [intKeyCompare]
    rw [if_neg (lt_irrefl x), if_neg (lt_irrefl x)]
    exact ih

/-! ## Claim theorems -/

/-- C2: for every span on which `makeImmutable` has been called, every call to
`Set`, `TryIntersectWith`, `TryUnionWith`, or `PreferInclusive` raises the
mutation-disallowed invariant violation, and the span's four observable fields
(`start`, `startBoundary`, `end`, `endBoundary`) are exactly the fields the
span had before freezing; the failed call leaves them unchanged. -/
theorem frozen_blocks_all_mutators {ks : KeySpace} (sp0 : Span ks)
    (start end_ : ks.K) (sb eb : SpanBoundary) (other : Span ks) :
    (sp0.makeImmutable).start = sp0.start ∧
    (sp0.makeImmutable).end_ = sp0.end_ ∧
    (sp0.makeImmutable).startBoundary = sp0.startBoundary ∧
    (sp0.makeImmutable).endBoundary = sp0.endBoundary ∧
    (sp0.makeImmutable).Set start sb end_ eb =
      (sp0.makeImmutable, Except.error "mutation disallowed") ∧
    (sp0.makeImmutable).TryIntersectWith other =
      (sp0.makeImmutable, Except.error "mutation disallowed") ∧
    (sp0.makeImmutable).TryUnionWith other =
      (sp0.makeImmutable, Except.error "mutation disallowed") ∧
    (sp0.makeImmutable).PreferInclusive =
      (sp0.makeImmutable, Except.error "mutation disallowed") :=
  ⟨rfl, rfl, rfl, rfl, rfl, rfl, rfl, rfl⟩

/-- C6: the extension mapping is `Inclusive ↦ ExtendLow` / `Exclusive ↦
ExtendHigh` for start boundaries and `Inclusive ↦ ExtendHigh` / `Exclusive ↦
ExtendLow` for end boundaries; consequently, under the `Key.Compare` contract
clause that equal key tuples order `ExtendLow` before `ExtendHigh`, an
inclusive start at `k` compares strictly before an exclusive start at `k`
(same end) via `CompareStarts`, and an exclusive end at `k` compares strictly
before an inclusive end at `k` (same start) via `CompareEnds`. -/
theorem extension_mapping_and_strictness {ks : KeySpace}
    (hLH : ∀ k : ks.K, ks.compare k k ExtendLow ExtendHigh < 0) :
    (∀ sp : Span ks, sp.startBoundary = IncludeBoundary → sp.startExt = ExtendLow) ∧
    (∀ sp : Span ks, sp.startBoundary = ExcludeBoundary → sp.startExt = ExtendHigh) ∧
    (∀ sp : Span ks, sp.endBoundary = IncludeBoundary → sp.endExt = ExtendHigh) ∧
    (∀ sp : Span ks, sp.endBoundary = ExcludeBoundary → sp.endExt = ExtendLow) ∧
    (∀ (k e : ks.K) (eb : SpanBoundary) (i1 i2 : Bool),
      Span.CompareStarts ⟨k, e, IncludeBoundary, eb, i1⟩
        ⟨k, e, ExcludeBoundary, eb, i2⟩ < 0) ∧
    (∀ (s k : ks.K) (sb : SpanBoundary) (i1 i2 : Bool),
      Span.CompareEnds ⟨s, k, sb, ExcludeBoundary, i1⟩
        ⟨s, k, sb, IncludeBoundary, i2⟩ < 0) := by
  refine ⟨?_, ?_, ?_, ?_, ?_, ?_⟩
  · intro sp h; exact h
  · intro sp h; exact h
  · intro sp h; rw [Span.endExt, h]; rfl
  · intro sp h; rw [Span.endExt, h]; rfl
  · intro k e eb i1 i2; exact hLH k
  · intro s k sb i1 i2; exact hLH k

/-- Witness for C6 at concrete integer-key spans. -/
theorem extension_mapping_and_strictness_witness :
    Span.CompareStarts (⟨[1], [5], IncludeBoundary, IncludeBoundary, false⟩ : Span intKS)
      ⟨[1], [5], ExcludeBoundary, IncludeBoundary, false⟩ < 0 ∧
    Span.CompareEnds (⟨[1], [5], IncludeBoundary, ExcludeBoundary, false⟩ : Span intKS)
      ⟨[1], [5], IncludeBoundary, IncludeBoundary, false⟩ < 0 :=
  ⟨(@extension_mapping_and_strictness intKS intKeyCompare_low_high).2.2.2.2.1
      [1] [5] IncludeBoundary false false,
   (@extension_mapping_and_strictness intKS intKeyCompare_low_high).2.2.2.2.2
      [1] [5] IncludeBoundary false false⟩

/-- C9: for every unfrozen span, `PreferInclusive` succeeds and replaces an
exclusive start whose key has a next value with that next value and an
inclusive boundary, and an exclusive end whose key has a previous value with
that value and an inclusive boundary; a side that is already inclusive, or
whose key lacks the needed `Next`/`Prev`, is left completely unchanged
(one-sided partial normalization is permitted); the frozen flag is untouched.
In the concrete integer domain `(1 - 5)` becomes `[2 - 4]`. -/
theorem preferInclusive_spec {ks : KeySpace} (sp : Span ks)
    (hm : sp.immutable = false) :
    ((sp.PreferInclusive).2 = Except.ok () ∧
     (sp.PreferInclusive).1.immutable = sp.immutable ∧
     (sp.startBoundary = IncludeBoundary →
       (sp.PreferInclusive).1.start = sp.start ∧
       (sp.PreferInclusive).1.startBoundary = sp.startBoundary) ∧
     (sp.startBoundary = ExcludeBoundary → ks.next sp.start = none →
       (sp.PreferInclusive).1.start = sp.start ∧
       (sp.PreferInclusive).1.startBoundary = sp.startBoundary) ∧
     (∀ k, sp.startBoundary = ExcludeBoundary → ks.next sp.start = some k →
       (sp.PreferInclusive).1.start = k ∧
       (sp.PreferInclusive).1.startBoundary = IncludeBoundary) ∧
     (sp.endBoundary = IncludeBoundary →
       (sp.PreferInclusive).1.end_ = sp.end_ ∧
       (sp.PreferInclusive).1.endBoundary = sp.endBoundary) ∧
     (sp.endBoundary = ExcludeBoundary → ks.prev sp.end_ = none →
       (sp.PreferInclusive).1.end_ = sp.end_ ∧
       (sp.PreferInclusive).1.endBoundary = sp.endBoundary) ∧
     (∀ k, sp.endBoundary = ExcludeBoundary → ks.prev sp.end_ = some k →
       (sp.PreferInclusive).1.end_ = k ∧
       (sp.PreferInclusive).1.endBoundary = IncludeBoundary)) ∧
    (⟨[1], [5], ExcludeBoundary, ExcludeBoundary, false⟩ : Span intKS).PreferInclusive =
      (⟨[2], [4], IncludeBoundary, IncludeBoundary, false⟩, Except.ok ()) := by
  refine ⟨?_, rfl⟩
  obtain ⟨s, e, sb, ebb, im⟩ := sp
  simp only at hm
  subst hm
  cases sb <;> cases ebb <;>
    simp only [Span.PreferInclusive, IncludeBoundary, ExcludeBoundary] <;>
    rcases hnext : ks.next s with _ | k1 <;>
    rcases hprev : ks.prev e with _ | k2 <;>
    simp_all

/-- Witness for C9: the step case on the integer domain and the
no-`Next`/`Prev` case on a stepless domain, both via `preferInclusive_spec`. -/
theorem preferInclusive_spec_witness :
    (((⟨[1], [5], ExcludeBoundary, ExcludeBoundary, false⟩ : Span intKS).PreferInclusive).1.start = [2] ∧
     ((⟨[1], [5], ExcludeBoundary, ExcludeBoundary, false⟩ : Span intKS).PreferInclusive).1.startBoundary = IncludeBoundary) ∧
    (((⟨[1], [5], ExcludeBoundary, ExcludeBoundary, false⟩ : Span noStepKS).PreferInclusive).1.start = [1] ∧
     ((⟨[1], [5], ExcludeBoundary, ExcludeBoundary, false⟩ : Span noStepKS).PreferInclusive).1.startBoundary = ExcludeBoundary) :=
  ⟨(preferInclusive_spec (⟨[1], [5], ExcludeBoundary, ExcludeBoundary, false⟩ : Span intKS)
      rfl).1.2.2.2.2.1 [2] rfl rfl,
   (preferInclusive_spec (⟨[1], [5], ExcludeBoundary, ExcludeBoundary, false⟩ : Span noStepKS)
      rfl).1.2.2.2.1 rfl rfl⟩

/-- C1 counterexample: a `Set` call that raises the start-greater-or-equal-end
invariant violation does so only after all four fields have been written — at
the panic point the span's `start` is the newly requested `[5]`, not the
original `[1]`, so the call is not all-or-nothing. -/
theorem set_not_all_or_nothing_counterexample :
    ((⟨[1], [2], IncludeBoundary, IncludeBoundary, false⟩ : Span intKS).Set
        [5] IncludeBoundary [3] IncludeBoundary).2 =
      Except.error "span cannot be empty" ∧
    ((⟨[1], [2], IncludeBoundary, IncludeBoundary, false⟩ : Span intKS).Set
        [5] IncludeBoundary [3] IncludeBoundary).1.start = [5] ∧
    (⟨[1], [2], IncludeBoundary, IncludeBoundary, false⟩ : Span intKS).start = [1] ∧
    ([5] : List Int) ≠ [1] :=
  ⟨rfl, rfl, rfl, by decide⟩

/-- C1 (amended): the frozen-span, unconstrained-pair, and malformed
empty-boundary violations are detected before any field is written, so those
failed `Set` calls leave the span exactly as it was; the start-greater-or-
equal-end violation, however, is detected only after all four fields have been
assigned, so that failed call leaves the span holding the requested values. -/
theorem set_violation_mutation_amended {ks : KeySpace} (sp : Span ks)
    (start end_ : ks.K) (sb eb : SpanBoundary) :
    (sp.immutable = true →
      sp.Set start sb end_ eb = (sp, Except.error "mutation disallowed")) ∧
    (sp.immutable = false → ks.isEmpty start = true → ks.isEmpty end_ = true →
      sp.Set start sb end_ eb =
        (sp, Except.error "unconstrained span should never be used")) ∧
    (sp.immutable = false → ks.isEmpty start = true → ks.isEmpty end_ = false →
      sb = ExcludeBoundary →
      sp.Set start sb end_ eb =
        (sp, Except.error "an empty start boundary must be inclusive")) ∧
    (sp.immutable = false → ks.isEmpty start = false → ks.isEmpty end_ = true →
      eb = ExcludeBoundary →
      sp.Set start sb end_ eb =
        (sp, Except.error "an empty end boundary must be inclusive")) ∧
    (sp.immutable = false →
      (ks.isEmpty start = true → ks.isEmpty end_ = false ∧ sb = IncludeBoundary) →
      (ks.isEmpty end_ = true → eb = IncludeBoundary) →
      0 ≤ ks.compare start end_ (Span.startExt ⟨start, end_, sb, eb, false⟩)
          (Span.endExt ⟨start, end_, sb, eb, false⟩) →
      sp.Set start sb end_ eb =
        (⟨start, end_, sb, eb, false⟩, Except.error "span cannot be empty")) := by
  refine ⟨?_, ?_, ?_, ?_, ?_⟩
  · intro him
    simp [Span.Set, him]
  · intro him hst hen
    simp [Span.Set, him, hst, hen]
  · intro him hst hen hsb
    simp [Span.Set, him, hst, hen, hsb]
  · intro him hst hen heb
    simp [Span.Set, him, hst, hen, heb]
  · intro him h1 h2 hcmp
    simp only [Span.startExt, Span.endExt] at hcmp
    cases hst : ks.isEmpty start with
    | true =>
      obtain ⟨hen, hsb⟩ := h1 hst
      subst hsb
      simp only [IncludeBoundary] at hcmp
      simp [Span.Set, him, hst, hen, IncludeBoundary, ExcludeBoundary,
        Span.startExt, Span.endExt, hcmp]
    | false =>
      cases hen : ks.isEmpty end_ with
      | true =>
        have heb := h2 hen
        subst heb
        simp only [IncludeBoundary, Bool.not_false] at hcmp
        simp [Span.Set, him, hst, hen, IncludeBoundary, ExcludeBoundary,
          Span.startExt, Span.endExt, hcmp]
      | false =>
        simp [Span.Set, him, hst, hen, Span.startExt, Span.endExt, hcmp]

/-- Witness for C1 (amended): a frozen-span violation leaves the fields
unchanged; a start-after-end violation leaves the newly written fields. -/
theorem set_violation_mutation_amended_witness :
    ((⟨[1], [2], IncludeBoundary, IncludeBoundary, true⟩ : Span intKS).Set
        [3] IncludeBoundary [4] IncludeBoundary =
      (⟨[1], [2], IncludeBoundary, IncludeBoundary, true⟩,
        Except.error "mutation disallowed")) ∧
    ((⟨[1], [2], IncludeBoundary, IncludeBoundary, false⟩ : Span intKS).Set
        [5] IncludeBoundary [3] IncludeBoundary =
      (⟨[5], [3], IncludeBoundary, IncludeBoundary, false⟩,
        Except.error "span cannot be empty")) :=
  ⟨(set_violation_mutation_amended
      (⟨[1], [2], IncludeBoundary, IncludeBoundary, true⟩ : Span intKS)
      [3] [4] IncludeBoundary IncludeBoundary).1 rfl,
   (set_violation_mutation_amended
      (⟨[1], [2], IncludeBoundary, IncludeBoundary, false⟩ : Span intKS)
      [5] [3] IncludeBoundary IncludeBoundary).2.2.2.2 rfl (by decide) (by decide)
      (by decide)⟩

/-- C5: `Set` raises an invariant violation exactly when the span is frozen,
both keys are empty, the start key is empty with an exclusive start boundary,
the end key is empty with an exclusive end boundary, or the requested start is
greater than or equal to the requested end under extended-key comparison; on
success the resulting span holds exactly the requested fields and satisfies
invariants I1-I3 (empty bounds are inclusive, start strictly precedes end). -/
theorem set_violation_iff {ks : KeySpace} (sp : Span ks)
    (start end_ : ks.K) (sb eb : SpanBoundary) :
    ((∃ msg, (sp.Set start sb end_ eb).2 = Except.error msg) ↔
      (sp.immutable = true ∨
       (ks.isEmpty start = true ∧ ks.isEmpty end_ = true) ∨
       (ks.isEmpty start = true ∧ sb = ExcludeBoundary) ∨
       (ks.isEmpty end_ = true ∧ eb = ExcludeBoundary) ∨
       0 ≤ ks.compare start end_ (Span.startExt ⟨start, end_, sb, eb, false⟩)
           (Span.endExt ⟨start, end_, sb, eb, false⟩))) ∧
    ((sp.Set start sb end_ eb).2 = Except.ok () →
      ((sp.Set start sb end_ eb).1.start = start ∧
       (sp.Set start sb end_ eb).1.startBoundary = sb ∧
       (sp.Set start sb end_ eb).1.end_ = end_ ∧
       (sp.Set start sb end_ eb).1.endBoundary = eb ∧
       (sp.Set start sb end_ eb).1.immutable = sp.immutable ∧
       (ks.isEmpty start = true → sb = IncludeBoundary) ∧
       (ks.isEmpty end_ = true → eb = IncludeBoundary) ∧
       (sp.Set start sb end_ eb).1.Valid)) := by
  constructor
  · cases him : sp.immutable with
    | true => simp [Span.Set, him]
    | false =>
      cases hst : ks.isEmpty start with
      | true =>
        cases hen : ks.isEmpty end_ with
        | true => simp [Span.Set, him, hst, hen]
        | false =>
          cases sb with
          | true =>
            simp [Span.Set, him, hst, hen, ExcludeBoundary, IncludeBoundary]
          | false =>
            by_cases hcmp : 0 ≤ ks.compare start end_ false !eb
            · simp [Span.Set, him, hst, hen, ExcludeBoundary, IncludeBoundary,
                Span.startExt, Span.endExt, hcmp]
            · simp [Span.Set, him, hst, hen, ExcludeBoundary, IncludeBoundary,
                Span.startExt, Span.endExt, hcmp]
      | false =>
        cases hen : ks.isEmpty end_ with
        | true =>
          cases eb with
          | true =>
            simp [Span.Set, him, hst, hen, ExcludeBoundary, IncludeBoundary]
          | false =>
            by_cases hcmp : 0 ≤ ks.compare start end_ sb true
            · simp [Span.Set, him, hst, hen, ExcludeBoundary, IncludeBoundary,
                Span.startExt, Span.endExt, hcmp]
            · simp [Span.Set, him, hst, hen, ExcludeBoundary, IncludeBoundary,
                Span.startExt, Span.endExt, hcmp]
        | false =>
          by_cases hcmp : 0 ≤ ks.compare start end_ sb !eb
          · simp [Span.Set, him, hst, hen, ExcludeBoundary, IncludeBoundary,
              Span.startExt, Span.endExt, hcmp]
          · simp [Span.Set, him, hst, hen, ExcludeBoundary, IncludeBoundary,
              Span.startExt, Span.endExt, hcmp]
  · intro hok
    cases him : sp.immutable with
    | true => simp [Span.Set, him] at hok
    | false =>
      cases hst : ks.isEmpty start with
      | true =>
        cases hen : ks.isEmpty end_ with
        | true => simp [Span.Set, him, hst, hen] at hok
        | false =>
          cases sb with
          | true => simp [Span.Set, him, hst, hen, ExcludeBoundary] at hok
          | false =>
            by_cases hcmp : 0 ≤ ks.compare start end_ false !eb
            · exfalso
              simp [Span.Set, him, hst, hen, ExcludeBoundary, IncludeBoundary,
                Span.startExt, Span.endExt, hcmp] at hok
            · simp [Span.Set, him, hst, hen, ExcludeBoundary, IncludeBoundary,
                Span.startExt, Span.endExt, Span.Valid, hcmp]
              omega
      | false =>
        cases hen : ks.isEmpty end_ with
        | true =>
          cases eb with
          | true => simp [Span.Set, him, hst, hen, ExcludeBoundary] at hok
          | false =>
            by_cases hcmp : 0 ≤ ks.compare start end_ sb true
            · exfalso
              simp [Span.Set, him, hst, hen, ExcludeBoundary, IncludeBoundary,
                Span.startExt, Span.endExt, hcmp] at hok
            · simp [Span.Set, him, hst, hen, ExcludeBoundary, IncludeBoundary,
                Span.startExt, Span.endExt, Span.Valid, hcmp]
              omega
        | false =>
          by_cases hcmp : 0 ≤ ks.compare start end_ sb !eb
          · exfalso
            simp [Span.Set, him, hst, hen, ExcludeBoundary, IncludeBoundary,
              Span.startExt, Span.endExt, hcmp] at hok
          · simp [Span.Set, him, hst, hen, ExcludeBoundary, IncludeBoundary,
              Span.startExt, Span.endExt, Span.Valid, hcmp]
            omega

/-- `Span.Compare` is nonpositive iff the starts compare negatively, or tie
and the ends compare nonpositively. -/
theorem span_compare_le_zero_iff {ks : KeySpace} (A B : Span ks) :
    Span.Compare A B ≤ 0 ↔
      (A.CompareStarts B < 0 ∨ (A.CompareStarts B = 0 ∧ A.CompareEnds B ≤ 0)) := by
  simp only [Span.Compare]
  split_ifs <;> omega

/-- C7: for any fixed `KeyContext` under which `Key.Compare` is a total order,
`Span.Compare` is antisymmetric (`Compare(A,B) = -Compare(B,A)`) and
transitive, and returns 0 exactly when both `CompareStarts` and `CompareEnds`
return 0. -/
theorem compare_total_order {ks : KeySpace} (lc : LawfulCompare ks)
    (A B C : Span ks) :
    Span.Compare A B = -Span.Compare B A ∧
    (Span.Compare A B ≤ 0 → Span.Compare B C ≤ 0 → Span.Compare A C ≤ 0) ∧
    (Span.Compare A B = 0 ↔ A.CompareStarts B = 0 ∧ A.CompareEnds B = 0) := by
  have hs1 := lc.antisym A.start B.start A.startExt B.startExt
  have he1 := lc.antisym A.end_ B.end_ A.endExt B.endExt
  refine ⟨?_, ?_, ?_⟩
  · simp only [Span.Compare, Span.CompareStarts, Span.CompareEnds]
    split_ifs <;> omega
  · intro hAB hBC
    rw [span_compare_le_zero_iff] at hAB hBC ⊢
    simp only [Span.CompareStarts, Span.CompareEnds] at hAB hBC ⊢
    have hs2 := lc.antisym B.start C.start B.startExt C.startExt
    have hs3 := lc.antisym A.start C.start A.startExt C.startExt
    rcases hAB with hAB | ⟨hABs, hABe⟩
    · rcases hBC with hBC | ⟨hBCs, hBCe⟩
      · exact Or.inl (lc.lt_of_lt_of_le hAB (le_of_lt hBC))
      · exact Or.inl (lc.lt_of_lt_of_le hAB (le_of_eq hBCs))
    · rcases hBC with hBC | ⟨hBCs, hBCe⟩
      · exact Or.inl (lc.lt_of_le_of_lt (le_of_eq hABs) hBC)
      · refine Or.inr ⟨?_, ?_⟩
        · have t1 := lc.trans_le A.start B.start C.start A.startExt B.startExt
            C.startExt (le_of_eq hABs) (le_of_eq hBCs)
          have t2 := lc.trans_le C.start B.start A.start C.startExt B.startExt
            A.startExt (by omega) (by omega)
          omega
        · exact lc.trans_le A.end_ B.end_ C.end_ A.endExt B.endExt C.endExt
            hABe hBCe
  · simp only [Span.Compare, Span.CompareStarts, Span.CompareEnds]
    split_ifs <;> omega

/-- Witness for C7 at concrete integer-key spans. -/
theorem compare_total_order_witness :
    Span.Compare (⟨[1], [5], IncludeBoundary, IncludeBoundary, false⟩ : Span intKS)
      ⟨[3], [7], IncludeBoundary, IncludeBoundary, false⟩ ≤ 0 :=
  (compare_total_order intKS_lawful
      ⟨[1], [5], IncludeBoundary, IncludeBoundary, false⟩
      ⟨[2], [6], IncludeBoundary, IncludeBoundary, false⟩
      ⟨[3], [7], IncludeBoundary, IncludeBoundary, false⟩).2.1
    (by decide) (by decide)

/-- Witness for C5: a successful `Set` yields a valid span; a both-empty `Set`
raises a violation. -/
theorem set_violation_iff_witness :
    ((⟨[1], [2], IncludeBoundary, IncludeBoundary, false⟩ : Span intKS).Set
        [1] IncludeBoundary [5] IncludeBoundary).1.Valid ∧
    (∃ msg, ((⟨[1], [2], IncludeBoundary, IncludeBoundary, false⟩ : Span intKS).Set
        ([] : List Int) IncludeBoundary ([] : List Int) IncludeBoundary).2 =
      Except.error msg) :=
  ⟨((set_violation_iff (⟨[1], [2], IncludeBoundary, IncludeBoundary, false⟩ : Span intKS)
        [1] [5] IncludeBoundary IncludeBoundary).2 rfl).2.2.2.2.2.2.2,
   (set_violation_iff (⟨[1], [2], IncludeBoundary, IncludeBoundary, false⟩ : Span intKS)
        ([] : List Int) ([] : List Int) IncludeBoundary IncludeBoundary).1.mpr
     (Or.inr (Or.inl ⟨rfl, rfl⟩))⟩

/-- Complete characterization of `TryIntersectWith` on an unfrozen valid
receiver: it returns `false` exactly when the larger of the two starts is
greater than or equal to the smaller of the two ends under extended-key
comparison (leaving the receiver untouched), otherwise it returns `true` with
the larger start and the smaller end (and their boundaries); it never
panics. -/
theorem tryIntersectWith_characterization {ks : KeySpace} (lc : LawfulCompare ks)
    (A B : Span ks) (hA : A.immutable = false) (hvA : A.Valid) (hvB : B.Valid) :
    ((A.TryIntersectWith B).2 = Except.ok false ↔
      0 ≤ ks.compare (if 0 ≤ A.CompareStarts B then A.start else B.start)
          (if A.CompareEnds B ≤ 0 then A.end_ else B.end_)
          (if 0 ≤ A.CompareStarts B then A.startExt else B.startExt)
          (if A.CompareEnds B ≤ 0 then A.endExt else B.endExt)) ∧
    ((A.TryIntersectWith B).2 = Except.ok false → (A.TryIntersectWith B).1 = A) ∧
    ((A.TryIntersectWith B).2 = Except.ok true →
      ((A.TryIntersectWith B).1.start =
          (if 0 ≤ A.CompareStarts B then A.start else B.start) ∧
       (A.TryIntersectWith B).1.startBoundary =
          (if 0 ≤ A.CompareStarts B then A.startBoundary else B.startBoundary) ∧
       (A.TryIntersectWith B).1.end_ =
          (if A.CompareEnds B ≤ 0 then A.end_ else B.end_) ∧
       (A.TryIntersectWith B).1.endBoundary =
          (if A.CompareEnds B ≤ 0 then A.endBoundary else B.endBoundary) ∧
       (A.TryIntersectWith B).1.immutable = A.immutable)) ∧
    ((A.TryIntersectWith B).2 = Except.ok false ∨
     (A.TryIntersectWith B).2 = Except.ok true) := by
  have hs := lc.antisym A.start B.start A.startExt B.startExt
  have he := lc.antisym A.end_ B.end_ A.endExt B.endExt
  by_cases h1 : 0 < A.CompareStarts B ∧
      0 ≤ ks.compare A.start B.end_ A.startExt B.endExt
  · -- first empty-intersection return
    have hr : A.TryIntersectWith B = (A, Except.ok false) := by
      simp [Span.TryIntersectWith, hA, h1]
    obtain ⟨hcs, hchk⟩ := h1
    have hBA : ks.compare B.end_ A.start B.endExt A.startExt ≤ 0 := by
      have := lc.antisym A.start B.end_ A.startExt B.endExt; omega
    have h3 : ks.compare B.end_ A.end_ B.endExt A.endExt < 0 :=
      lc.lt_of_le_of_lt hBA hvA
    have hce : 0 < A.CompareEnds B := by
      simp only [Span.CompareEnds]; omega
    rw [hr]
    rw [if_pos (le_of_lt hcs), if_pos (le_of_lt hcs),
      if_neg (by omega : ¬A.CompareEnds B ≤ 0),
      if_neg (by omega : ¬A.CompareEnds B ≤ 0)]
    refine ⟨by simpa using hchk, fun _ => rfl, by simp, Or.inl rfl⟩
  · by_cases h2 : A.CompareEnds B < 0 ∧
        ks.compare A.end_ B.start A.endExt B.startExt ≤ 0
    · -- second empty-intersection return
      have hr : A.TryIntersectWith B = (A, Except.ok false) := by
        simp [Span.TryIntersectWith, hA, h1, h2]
      obtain ⟨hce, hchk⟩ := h2
      have hcs : A.CompareStarts B < 0 := by
        simp only [Span.CompareStarts]
        exact lc.lt_of_lt_of_le hvA hchk
      rw [hr]
      rw [if_neg (by omega : ¬0 ≤ A.CompareStarts B),
        if_neg (by omega : ¬0 ≤ A.CompareStarts B),
        if_pos (le_of_lt hce), if_pos (le_of_lt hce)]
      have hcond : 0 ≤ ks.compare B.start A.end_ B.startExt A.endExt := by
        have := lc.antisym A.end_ B.start A.endExt B.startExt; omega
      refine ⟨by simpa using hcond, fun _ => rfl, by simp, Or.inl rfl⟩
    · -- intersection is nonempty: mutate and return true
      have hr : A.TryIntersectWith B =
          (if 0 < A.CompareEnds B then
             { (if A.CompareStarts B < 0 then
                  { A with start := B.start, startBoundary := B.startBoundary }
                else A) with end_ := B.end_, endBoundary := B.endBoundary }
           else
             (if A.CompareStarts B < 0 then
                { A with start := B.start, startBoundary := B.startBoundary }
              else A),
           Except.ok true) := by
        simp only [Span.TryIntersectWith, hA, Bool.false_eq_true, if_false,
          if_neg h1, if_neg h2]
      have hncond : ¬0 ≤ ks.compare
          (if 0 ≤ A.CompareStarts B then A.start else B.start)
          (if A.CompareEnds B ≤ 0 then A.end_ else B.end_)
          (if 0 ≤ A.CompareStarts B then A.startExt else B.startExt)
          (if A.CompareEnds B ≤ 0 then A.endExt else B.endExt) := by
        intro hcond
        rcases le_or_lt 0 (A.CompareStarts B) with hcs | hcs
        · rcases le_or_lt (A.CompareEnds B) 0 with hce | hce
          · rw [if_pos hcs, if_pos hcs, if_pos hce, if_pos hce] at hcond
            exact absurd hvA (by simpa [Span.Valid] using hcond)
          · rw [if_pos hcs, if_pos hcs,
              if_neg (by omega : ¬A.CompareEnds B ≤ 0),
              if_neg (by omega : ¬A.CompareEnds B ≤ 0)] at hcond
            have hcs0 : A.CompareStarts B = 0 := by
              rcases lt_or_eq_of_le hcs with h | h
              · exact absurd ⟨h, hcond⟩ h1
              · omega
            obtain ⟨hk, hx⟩ := lc.eq_of_zero A.start B.start A.startExt
              B.startExt hcs0
            rw [hk, hx] at hcond
            exact absurd hvB (by simpa [Span.Valid] using hcond)
        · rcases le_or_lt (A.CompareEnds B) 0 with hce | hce
          · rw [if_neg (by omega : ¬0 ≤ A.CompareStarts B),
              if_neg (by omega : ¬0 ≤ A.CompareStarts B),
              if_pos hce, if_pos hce] at hcond
            have hchk : ks.compare A.end_ B.start A.endExt B.startExt ≤ 0 := by
              have := lc.antisym A.end_ B.start A.endExt B.startExt; omega
            have hce0 : A.CompareEnds B = 0 := by
              rcases lt_or_eq_of_le hce with h | h
              · exact absurd ⟨h, hchk⟩ h2
              · omega
            obtain ⟨hk, hx⟩ := lc.eq_of_zero A.end_ B.end_ A.endExt B.endExt hce0
            have hvB' : ks.compare B.start B.end_ B.startExt B.endExt < 0 := hvB
            rw [← hk, ← hx] at hvB'
            omega
          · rw [if_neg (by omega : ¬0 ≤ A.CompareStarts B),
              if_neg (by omega : ¬0 ≤ A.CompareStarts B),
              if_neg (by omega : ¬A.CompareEnds B ≤ 0),
              if_neg (by omega : ¬A.CompareEnds B ≤ 0)] at hcond
            exact absurd hvB (by simpa [Span.Valid] using hcond)
      refine ⟨?_, ?_, ?_, ?_⟩
      · rw [hr]
        simp only [Prod.snd]
        constructor
        · intro h; exact absurd h (by simp)
        · intro h; exact absurd h hncond
      · rw [hr]; intro h; exact absurd h (by simp)
      · intro _
        rw [hr]
        rcases lt_or_le (A.CompareStarts B) 0 with hcs | hcs <;>
          rcases lt_or_le 0 (A.CompareEnds B) with hce | hce
        · rw [if_pos hce, if_pos hcs, if_neg (by omega : ¬0 ≤ A.CompareStarts B),
            if_neg (by omega : ¬0 ≤ A.CompareStarts B),
            if_neg (by omega : ¬A.CompareEnds B ≤ 0),
            if_neg (by omega : ¬A.CompareEnds B ≤ 0)]
          exact ⟨rfl, rfl, rfl, rfl, rfl⟩
        · rw [if_neg (by omega : ¬0 < A.CompareEnds B), if_pos hcs,
            if_neg (by omega : ¬0 ≤ A.CompareStarts B),
            if_neg (by omega : ¬0 ≤ A.CompareStarts B),
            if_pos hce, if_pos hce]
          exact ⟨rfl, rfl, rfl, rfl, rfl⟩
        · rw [if_pos hce, if_neg (by omega : ¬A.CompareStarts B < 0),
            if_pos hcs, if_pos hcs,
            if_neg (by omega : ¬A.CompareEnds B ≤ 0),
            if_neg (by omega : ¬A.CompareEnds B ≤ 0)]
          exact ⟨rfl, rfl, rfl, rfl, rfl⟩
        · rw [if_neg (by omega : ¬0 < A.CompareEnds B),
            if_neg (by omega : ¬A.CompareStarts B < 0),
            if_pos hcs, if_pos hcs, if_pos hce, if_pos hce]
          exact ⟨rfl, rfl, rfl, rfl, rfl⟩
      · rw [hr]; exact Or.inr rfl

/-- C3: for an unfrozen valid span `A` and valid span `B`, `TryIntersectWith`
returns `false` with all four fields of `A` unchanged exactly when the larger
of the two starts is greater than or equal to the smaller of the two ends
under extended-key comparison; otherwise it returns `true` and `A` adopts the
larger start (with its boundary) and the smaller end (with its boundary). -/
theorem tryIntersectWith_spec {ks : KeySpace} (lc : LawfulCompare ks)
    (A B : Span ks) (hA : A.immutable = false) (hvA : A.Valid) (hvB : B.Valid) :
    (((A.TryIntersectWith B).2 = Except.ok false ∧ (A.TryIntersectWith B).1 = A) ↔
      0 ≤ ks.compare (if 0 ≤ A.CompareStarts B then A.start else B.start)
          (if A.CompareEnds B ≤ 0 then A.end_ else B.end_)
          (if 0 ≤ A.CompareStarts B then A.startExt else B.startExt)
          (if A.CompareEnds B ≤ 0 then A.endExt else B.endExt)) ∧
    (¬0 ≤ ks.compare (if 0 ≤ A.CompareStarts B then A.start else B.start)
          (if A.CompareEnds B ≤ 0 then A.end_ else B.end_)
          (if 0 ≤ A.CompareStarts B then A.startExt else B.startExt)
          (if A.CompareEnds B ≤ 0 then A.endExt else B.endExt) →
      ((A.TryIntersectWith B).2 = Except.ok true ∧
       (A.TryIntersectWith B).1.start =
          (if 0 ≤ A.CompareStarts B then A.start else B.start) ∧
       (A.TryIntersectWith B).1.startBoundary =
          (if 0 ≤ A.CompareStarts B then A.startBoundary else B.startBoundary) ∧
       (A.TryIntersectWith B).1.end_ =
          (if A.CompareEnds B ≤ 0 then A.end_ else B.end_) ∧
       (A.TryIntersectWith B).1.endBoundary =
          (if A.CompareEnds B ≤ 0 then A.endBoundary else B.endBoundary))) := by
  obtain ⟨hiff, hunch, hfields, htot⟩ :=
    tryIntersectWith_characterization lc A B hA hvA hvB
  constructor
  · constructor
    · rintro ⟨h, _⟩; exact hiff.mp h
    · intro h; exact ⟨hiff.mpr h, hunch (hiff.mpr h)⟩
  · intro h
    have ht : (A.TryIntersectWith B).2 = Except.ok true := by
      rcases htot with h0 | h0
      · exact absurd (hiff.mp h0) h
      · exact h0
    obtain ⟨f1, f2, f3, f4, _⟩ := hfields ht
    exact ⟨ht, f1, f2, f3, f4⟩

/-- Witness for C3: `[1 - 5] ∩ [3 - 7]` succeeds and tightens to `[3 - 5]`. -/
theorem tryIntersectWith_spec_witness :
    ((⟨[1], [5], IncludeBoundary, IncludeBoundary, false⟩ : Span intKS).TryIntersectWith
        ⟨[3], [7], IncludeBoundary, IncludeBoundary, false⟩).2 = Except.ok true ∧
    ((⟨[1], [5], IncludeBoundary, IncludeBoundary, false⟩ : Span intKS).TryIntersectWith
        ⟨[3], [7], IncludeBoundary, IncludeBoundary, false⟩).1.start =
      (if 0 ≤ Span.CompareStarts (⟨[1], [5], IncludeBoundary, IncludeBoundary, false⟩ : Span intKS)
          ⟨[3], [7], IncludeBoundary, IncludeBoundary, false⟩ then
        (⟨[1], [5], IncludeBoundary, IncludeBoundary, false⟩ : Span intKS).start
      else ([3] : List Int)) := by
  have h := (tryIntersectWith_spec intKS_lawful
    ⟨[1], [5], IncludeBoundary, IncludeBoundary, false⟩
    ⟨[3], [7], IncludeBoundary, IncludeBoundary, false⟩
    rfl (by decide) (by decide)).2 (by decide)
  exact ⟨h.1, h.2.1⟩

/-- C10: intersecting an unfrozen valid span with any valid span that contains
it (its start is at or after the other's start, its end at or before the
other's end, as extended keys) returns `true` and leaves it exactly
unchanged; in particular intersecting with a copy of itself is the
identity. -/
theorem tryIntersectWith_contained {ks : KeySpace} (lc : LawfulCompare ks)
    (A : Span ks) (hA : A.immutable = false) (hvA : A.Valid) :
    (∀ B : Span ks, B.Valid → 0 ≤ A.CompareStarts B → A.CompareEnds B ≤ 0 →
      A.TryIntersectWith B = (A, Except.ok true)) ∧
    A.TryIntersectWith A.Copy = (A, Except.ok true) := by
  have main : ∀ B : Span ks, B.Valid → 0 ≤ A.CompareStarts B →
      A.CompareEnds B ≤ 0 → A.TryIntersectWith B = (A, Except.ok true) := by
    intro B hvB hcs hce
    obtain ⟨hiff, hunch, hfields, htot⟩ :=
      tryIntersectWith_characterization lc A B hA hvA hvB
    have hncond : ¬0 ≤ ks.compare
        (if 0 ≤ A.CompareStarts B then A.start else B.start)
        (if A.CompareEnds B ≤ 0 then A.end_ else B.end_)
        (if 0 ≤ A.CompareStarts B then A.startExt else B.startExt)
        (if A.CompareEnds B ≤ 0 then A.endExt else B.endExt) := by
      rw [if_pos hcs, if_pos hcs, if_pos hce, if_pos hce]
      exact not_le.mpr hvA
    have ht : (A.TryIntersectWith B).2 = Except.ok true := by
      rcases htot with h0 | h0
      · exact absurd (hiff.mp h0) hncond
      · exact h0
    obtain ⟨f1, f2, f3, f4, f5⟩ := hfields ht
    rw [if_pos hcs] at f1 f2
    rw [if_pos hce] at f3 f4
    have hfst : (A.TryIntersectWith B).1 = A := by
      rcases hEq : (A.TryIntersectWith B).1 with ⟨s, e, sb, eb, im⟩
      rw [hEq] at f1 f2 f3 f4 f5
      simp only at f1 f2 f3 f4 f5
      rw [f1, f2, f3, f4, f5, hA]
      rw [← hA]
    exact Prod.ext hfst ht
  refine ⟨main, ?_⟩
  have h1 : A.CompareStarts A.Copy = 0 := lc.cmp_refl A.start A.startExt
  have h2 : A.CompareEnds A.Copy = 0 := lc.cmp_refl A.end_ A.endExt
  exact main A.Copy hvA (le_of_eq h1.symm) (le_of_eq h2)

/-- Witness for C10 at a concrete contained pair. -/
theorem tryIntersectWith_contained_witness :
    (⟨[2], [4], IncludeBoundary, IncludeBoundary, false⟩ : Span intKS).TryIntersectWith
        ⟨[1], [5], IncludeBoundary, IncludeBoundary, false⟩ =
      (⟨[2], [4], IncludeBoundary, IncludeBoundary, false⟩, Except.ok true) :=
  (tryIntersectWith_contained intKS_lawful
      ⟨[2], [4], IncludeBoundary, IncludeBoundary, false⟩ rfl (by decide)).1
    ⟨[1], [5], IncludeBoundary, IncludeBoundary, false⟩
    (by decide) (by decide) (by decide)

/-- C8: intersection is commutative up to value equality — for valid spans `A`
and `B`, `A.Copy().TryIntersectWith(B)` and `B.Copy().TryIntersectWith(A)`
return the same result flag (and neither panics), and when both succeed the
two resulting spans agree on `start`, `startBoundary`, `end`, and
`endBoundary`. -/
theorem tryIntersectWith_commutes {ks : KeySpace} (lc : LawfulCompare ks)
    (A B : Span ks) (hvA : A.Valid) (hvB : B.Valid) :
    (A.Copy.TryIntersectWith B).2 = (B.Copy.TryIntersectWith A).2 ∧
    ((A.Copy.TryIntersectWith B).2 = Except.ok true →
      ((A.Copy.TryIntersectWith B).1.start = (B.Copy.TryIntersectWith A).1.start ∧
       (A.Copy.TryIntersectWith B).1.startBoundary =
         (B.Copy.TryIntersectWith A).1.startBoundary ∧
       (A.Copy.TryIntersectWith B).1.end_ = (B.Copy.TryIntersectWith A).1.end_ ∧
       (A.Copy.TryIntersectWith B).1.endBoundary =
         (B.Copy.TryIntersectWith A).1.endBoundary)) := by
  obtain ⟨hiffA, huA, hfA, htA⟩ :=
    tryIntersectWith_characterization lc A.Copy B rfl hvA hvB
  obtain ⟨hiffB, huB, hfB, htB⟩ :=
    tryIntersectWith_characterization lc B.Copy A rfl hvB hvA
  have hcs : A.Copy.CompareStarts B = -(B.Copy.CompareStarts A) :=
    lc.antisym A.start B.start A.startExt B.startExt
  have hce : A.Copy.CompareEnds B = -(B.Copy.CompareEnds A) :=
    lc.antisym A.end_ B.end_ A.endExt B.endExt
  have hsel1 : (if 0 ≤ A.Copy.CompareStarts B then A.Copy.start else B.start) =
      (if 0 ≤ B.Copy.CompareStarts A then B.Copy.start else A.start) := by
    rcases lt_trichotomy (A.Copy.CompareStarts B) 0 with h | h | h
    · rw [if_neg (by omega), if_pos (by omega)]; rfl
    · obtain ⟨hk, hx⟩ := lc.eq_of_zero A.start B.start A.startExt B.startExt h
      rw [if_pos (by omega), if_pos (by omega)]
      exact hk
    · rw [if_pos (by omega), if_neg (by omega)]; rfl
  have hsel1e : (if 0 ≤ A.Copy.CompareStarts B then A.Copy.startExt else B.startExt) =
      (if 0 ≤ B.Copy.CompareStarts A then B.Copy.startExt else A.startExt) := by
    rcases lt_trichotomy (A.Copy.CompareStarts B) 0 with h | h | h
    · rw [if_neg (by omega), if_pos (by omega)]; rfl
    · obtain ⟨hk, hx⟩ := lc.eq_of_zero A.start B.start A.startExt B.startExt h
      rw [if_pos (by omega), if_pos (by omega)]
      exact hx
    · rw [if_pos (by omega), if_neg (by omega)]; rfl
  have hsel2 : (if 0 ≤ A.Copy.CompareStarts B then A.Copy.startBoundary
        else B.startBoundary) =
      (if 0 ≤ B.Copy.CompareStarts A then B.Copy.startBoundary
        else A.startBoundary) := by
    rcases lt_trichotomy (A.Copy.CompareStarts B) 0 with h | h | h
    · rw [if_neg (by omega), if_pos (by omega)]; rfl
    · obtain ⟨hk, hx⟩ := lc.eq_of_zero A.start B.start A.startExt B.startExt h
      rw [if_pos (by omega), if_pos (by omega)]
      exact hx
    · rw [if_pos (by omega), if_neg (by omega)]; rfl
  have hsel3 : (if A.Copy.CompareEnds B ≤ 0 then A.Copy.end_ else B.end_) =
      (if B.Copy.CompareEnds A ≤ 0 then B.Copy.end_ else A.end_) := by
    rcases lt_trichotomy (A.Copy.CompareEnds B) 0 with h | h | h
    · rw [if_pos (by omega), if_neg (by omega)]; rfl
    · obtain ⟨hk, hx⟩ := lc.eq_of_zero A.end_ B.end_ A.endExt B.endExt h
      rw [if_pos (by omega), if_pos (by omega)]
      exact hk
    · rw [if_neg (by omega), if_pos (by omega)]; rfl
  have hsel3e : (if A.Copy.CompareEnds B ≤ 0 then A.Copy.endExt else B.endExt) =
      (if B.Copy.CompareEnds A ≤ 0 then B.Copy.endExt else A.endExt) := by
    rcases lt_trichotomy (A.Copy.CompareEnds B) 0 with h | h | h
    · rw [if_pos (by omega), if_neg (by omega)]; rfl
    · obtain ⟨hk, hx⟩ := lc.eq_of_zero A.end_ B.end_ A.endExt B.endExt h
      rw [if_pos (by omega), if_pos (by omega)]
      exact hx
    · rw [if_neg (by omega), if_pos (by omega)]; rfl
  have hsel4 : (if A.Copy.CompareEnds B ≤ 0 then A.Copy.endBoundary
        else B.endBoundary) =
      (if B.Copy.CompareEnds A ≤ 0 then B.Copy.endBoundary
        else A.endBoundary) := by
    rcases lt_trichotomy (A.Copy.CompareEnds B) 0 with h | h | h
    · rw [if_pos (by omega), if_neg (by omega)]; rfl
    · obtain ⟨hk, hx⟩ := lc.eq_of_zero A.end_ B.end_ A.endExt B.endExt h
      have hx' : (!A.endBoundary) = (!B.endBoundary) := hx
      have hb : A.endBoundary = B.endBoundary := by
        cases hab : A.endBoundary <;> cases hbb : B.endBoundary <;> simp_all
      rw [if_pos (by omega), if_pos (by omega)]
      exact hb
    · rw [if_neg (by omega), if_pos (by omega)]; rfl
  have hcond : (0 ≤ ks.compare
      (if 0 ≤ A.Copy.CompareStarts B then A.Copy.start else B.start)
      (if A.Copy.CompareEnds B ≤ 0 then A.Copy.end_ else B.end_)
      (if 0 ≤ A.Copy.CompareStarts B then A.Copy.startExt else B.startExt)
      (if A.Copy.CompareEnds B ≤ 0 then A.Copy.endExt else B.endExt)) ↔
      (0 ≤ ks.compare
      (if 0 ≤ B.Copy.CompareStarts A then B.Copy.start else A.start)
      (if B.Copy.CompareEnds A ≤ 0 then B.Copy.end_ else A.end_)
      (if 0 ≤ B.Copy.CompareStarts A then B.Copy.startExt else A.startExt)
      (if B.Copy.CompareEnds A ≤ 0 then B.Copy.endExt else A.endExt)) := by
    rw [hsel1, hsel1e, hsel3, hsel3e]
  have hflag : (A.Copy.TryIntersectWith B).2 = (B.Copy.TryIntersectWith A).2 := by
    rcases htA with h0 | h0 <;> rcases htB with h1 | h1
    · rw [h0, h1]
    · exact absurd (hiffB.mpr (hcond.mp (hiffA.mp h0))) (by rw [h1]; simp)
    · exact absurd (hiffA.mpr (hcond.mpr (hiffB.mp h1))) (by rw [h0]; simp)
    · rw [h0, h1]
  refine ⟨hflag, ?_⟩
  intro hT
  have hTB : (B.Copy.TryIntersectWith A).2 = Except.ok true := by
    rw [← hflag]; exact hT
  obtain ⟨fa1, fa2, fa3, fa4, _⟩ := hfA hT
  obtain ⟨fb1, fb2, fb3, fb4, _⟩ := hfB hTB
  refine ⟨?_, ?_, ?_, ?_⟩
  · rw [fa1, fb1, hsel1]
  · rw [fa2, fb2, hsel2]
  · rw [fa3, fb3, hsel3]
  · rw [fa4, fb4, hsel4]

/-- Witness for C8 at a concrete overlapping pair. -/
theorem tryIntersectWith_commutes_witness :
    ((⟨[1], [5], IncludeBoundary, IncludeBoundary, false⟩ : Span intKS).Copy.TryIntersectWith
        ⟨[3], [7], IncludeBoundary, IncludeBoundary, false⟩).2 =
      ((⟨[3], [7], IncludeBoundary, IncludeBoundary, false⟩ : Span intKS).Copy.TryIntersectWith
        ⟨[1], [5], IncludeBoundary, IncludeBoundary, false⟩).2 :=
  (tryIntersectWith_commutes intKS_lawful
      ⟨[1], [5], IncludeBoundary, IncludeBoundary, false⟩
      ⟨[3], [7], IncludeBoundary, IncludeBoundary, false⟩
      (by decide) (by decide)).1

/-- C4: for an unfrozen valid span `A` and valid span `B`, `TryUnionWith`
returns `false` with `A` unchanged exactly when the span with the strictly
lesser start has an end strictly less (as an extended key) than the other
span's start — a genuine gap; otherwise it returns `true` and `A` takes the
lesser of the two starts and the greater of the two ends (ties keep `A`'s
side). In particular `[1-5] ∪ [10-15]` returns `false` leaving `[1-5]`
unchanged, `[1-5] ∪ [5-10]` returns `true` producing `[1-10]`, and
`[1-5) ∪ (5-10]` returns `false`. -/
theorem tryUnionWith_spec {ks : KeySpace} (lc : LawfulCompare ks)
    (A B : Span ks) (hA : A.immutable = false) (hvA : A.Valid) (hvB : B.Valid) :
    ((((A.TryUnionWith B).2 = Except.ok false ∧ (A.TryUnionWith B).1 = A) ↔
       ((A.CompareStarts B < 0 ∧
           ks.compare A.end_ B.start A.endExt B.startExt < 0) ∨
        (0 < A.CompareStarts B ∧
           ks.compare B.end_ A.start B.endExt A.startExt < 0))) ∧
     (¬((A.CompareStarts B < 0 ∧
           ks.compare A.end_ B.start A.endExt B.startExt < 0) ∨
        (0 < A.CompareStarts B ∧
           ks.compare B.end_ A.start B.endExt A.startExt < 0)) →
       ((A.TryUnionWith B).2 = Except.ok true ∧
        (A.TryUnionWith B).1.start =
          (if A.CompareStarts B ≤ 0 then A.start else B.start) ∧
        (A.TryUnionWith B).1.startBoundary =
          (if A.CompareStarts B ≤ 0 then A.startBoundary else B.startBoundary) ∧
        (A.TryUnionWith B).1.end_ =
          (if 0 ≤ A.CompareEnds B then A.end_ else B.end_) ∧
        (A.TryUnionWith B).1.endBoundary =
          (if 0 ≤ A.CompareEnds B then A.endBoundary else B.endBoundary)))) ∧
    ((⟨[1], [5], IncludeBoundary, IncludeBoundary, false⟩ : Span intKS).TryUnionWith
        ⟨[10], [15], IncludeBoundary, IncludeBoundary, false⟩ =
      (⟨[1], [5], IncludeBoundary, IncludeBoundary, false⟩, Except.ok false)) ∧
    ((⟨[1], [5], IncludeBoundary, IncludeBoundary, false⟩ : Span intKS).TryUnionWith
        ⟨[5], [10], IncludeBoundary, IncludeBoundary, false⟩ =
      (⟨[1], [10], IncludeBoundary, IncludeBoundary, false⟩, Except.ok true)) ∧
    ((⟨[1], [5], IncludeBoundary, ExcludeBoundary, false⟩ : Span intKS).TryUnionWith
        ⟨[5], [10], ExcludeBoundary, IncludeBoundary, false⟩ =
      (⟨[1], [5], IncludeBoundary, ExcludeBoundary, false⟩, Except.ok false)) := by
  refine ⟨?_, rfl, rfl, rfl⟩
  rcases lt_trichotomy (A.CompareStarts B) 0 with hcs | hcs | hcs
  · by_cases hX : ks.compare A.end_ B.start A.endExt B.startExt < 0
    · have hr : A.TryUnionWith B = (A, Except.ok false) := by
        simp only [Span.TryUnionWith, hA, Bool.false_eq_true, if_false]
        rw [if_pos hcs, if_pos hX]
      rw [hr]
      exact ⟨⟨fun _ => Or.inl ⟨hcs, hX⟩, fun _ => ⟨rfl, rfl⟩⟩,
        fun hng => absurd (Or.inl ⟨hcs, hX⟩) hng⟩
    · have hr : A.TryUnionWith B =
          (if A.CompareEnds B < 0 then
             { A with end_ := B.end_, endBoundary := B.endBoundary }
           else A, Except.ok true) := by
        simp only [Span.TryUnionWith, hA, Bool.false_eq_true, if_false]
        rw [if_pos hcs, if_neg hX,
          if_neg (by omega : ¬0 < A.CompareStarts B), hA]
      rw [hr]
      constructor
      · constructor
        · rintro ⟨h2, _⟩
          simp at h2
        · rintro (⟨_, hx⟩ | ⟨hgt, _⟩)
          · exact absurd hx hX
          · omega
      · intro _
        rcases lt_or_le (A.CompareEnds B) 0 with hce | hce
        · rw [if_pos hce, if_pos (le_of_lt hcs), if_pos (le_of_lt hcs),
            if_neg (by omega : ¬0 ≤ A.CompareEnds B),
            if_neg (by omega : ¬0 ≤ A.CompareEnds B)]
          exact ⟨rfl, rfl, rfl, rfl, rfl⟩
        · rw [if_neg (by omega : ¬A.CompareEnds B < 0),
            if_pos (le_of_lt hcs), if_pos (le_of_lt hcs),
            if_pos hce, if_pos hce]
          exact ⟨rfl, rfl, rfl, rfl, rfl⟩
  · have hr : A.TryUnionWith B =
        (if A.CompareEnds B < 0 then
           { A with end_ := B.end_, endBoundary := B.endBoundary }
         else A, Except.ok true) := by
      simp only [Span.TryUnionWith, hA, Bool.false_eq_true, if_false]
      rw [if_neg (by omega : ¬A.CompareStarts B < 0),
        if_neg (by omega : ¬0 < A.CompareStarts B),
        if_neg (by omega : ¬(0 : Int) < 0),
        if_neg (by omega : ¬0 < A.CompareStarts B), hA]
    rw [hr]
    constructor
    · constructor
      · rintro ⟨h2, _⟩
        simp at h2
      · rintro (⟨hlt, _⟩ | ⟨hgt, _⟩) <;> omega
    · intro _
      rcases lt_or_le (A.CompareEnds B) 0 with hce | hce
      · rw [if_pos hce, if_pos (le_of_eq hcs), if_pos (le_of_eq hcs),
          if_neg (by omega : ¬0 ≤ A.CompareEnds B),
          if_neg (by omega : ¬0 ≤ A.CompareEnds B)]
        exact ⟨rfl, rfl, rfl, rfl, rfl⟩
      · rw [if_neg (by omega : ¬A.CompareEnds B < 0),
          if_pos (le_of_eq hcs), if_pos (le_of_eq hcs),
          if_pos hce, if_pos hce]
        exact ⟨rfl, rfl, rfl, rfl, rfl⟩
  · by_cases hY : ks.compare B.end_ A.start B.endExt A.startExt < 0
    · have hr : A.TryUnionWith B = (A, Except.ok false) := by
        simp only [Span.TryUnionWith, hA, Bool.false_eq_true, if_false]
        rw [if_neg (by omega : ¬A.CompareStarts B < 0), if_pos hcs, if_pos hY]
      rw [hr]
      exact ⟨⟨fun _ => Or.inr ⟨hcs, hY⟩, fun _ => ⟨rfl, rfl⟩⟩,
        fun hng => absurd (Or.inr ⟨hcs, hY⟩) hng⟩
    · have hr : A.TryUnionWith B =
          (if A.CompareEnds B < 0 then
             { { A with start := B.start, startBoundary := B.startBoundary } with
                 end_ := B.end_, endBoundary := B.endBoundary }
           else { A with start := B.start, startBoundary := B.startBoundary },
           Except.ok true) := by
        simp only [Span.TryUnionWith, hA, Bool.false_eq_true, if_false]
        rw [if_neg (by omega : ¬A.CompareStarts B < 0), if_pos hcs, if_neg hY,
          if_pos hcs]
      rw [hr]
      constructor
      · constructor
        · rintro ⟨h2, _⟩
          simp at h2
        · rintro (⟨hlt, _⟩ | ⟨_, hy⟩)
          · omega
          · exact absurd hy hY
      · intro _
        rcases lt_or_le (A.CompareEnds B) 0 with hce | hce
        · rw [if_pos hce, if_neg (by omega : ¬A.CompareStarts B ≤ 0),
            if_neg (by omega : ¬A.CompareStarts B ≤ 0),
            if_neg (by omega : ¬0 ≤ A.CompareEnds B),
            if_neg (by omega : ¬0 ≤ A.CompareEnds B)]
          exact ⟨rfl, rfl, rfl, rfl, rfl⟩
        · rw [if_neg (by omega : ¬A.CompareEnds B < 0),
            if_neg (by omega : ¬A.CompareStarts B ≤ 0),
            if_neg (by omega : ¬A.CompareStarts B ≤ 0),
            if_pos hce, if_pos hce]
          exact ⟨rfl, rfl, rfl, rfl, rfl⟩

/-- Witness for C4: touching spans `[1 - 5]` and `[5 - 10]` merge. -/
theorem tryUnionWith_spec_witness :
    ((⟨[1], [5], IncludeBoundary, IncludeBoundary, false⟩ : Span intKS).TryUnionWith
        ⟨[5], [10], IncludeBoundary, IncludeBoundary, false⟩).2 = Except.ok true :=
  ((tryUnionWith_spec intKS_lawful
      ⟨[1], [5], IncludeBoundary, IncludeBoundary, false⟩
      ⟨[5], [10], IncludeBoundary, IncludeBoundary, false⟩
      rfl (by decide) (by decide)).1.2 (by decide)).1
